import Mathlib

/-!
# Verification of `gini.py`

A shallow embedding of the single function `gini` of this repository
(`src/gini.py`) and proofs about it.

Modelling choices:

* Numbers are exact rationals (`ℚ`).  Note that `ℚ` division by zero yields
  `0` where Python/pandas float division by a zero sum yields `NaN`/`inf`;
  the theorems that touch a zero total say so explicitly.
* A tabular dataset is a list of rows of an arbitrary row type `α`; a column
  name is an accessor function `α → ℚ`.  Passing `ranking = none` mirrors the
  Python default `ranking = target` (lines 47-48 of the source), and
  `weight = none` mirrors the synthesized constant-1 weight column
  (lines 53-56).
* `data.sort_values(by=ranking, ascending=...)` is embedded as a
  deterministic comparison sort on the rank column, following
  `pandas.core.sorting.nargsort`: the ascending direction argsorts the rank
  column; the descending direction reverses the values and indices, argsorts,
  and reverses the result — so rank-tied rows keep their original relative
  order in both directions.  The argsort itself is embedded as a stable
  insertion sort; the actual pandas default (`kind='quicksort'`, numpy
  introsort) does not document its tie order, which matters only for
  statements about the order within rank ties.
* The `plot=True` branch (lines 91-106) only renders and returns nothing; it
  is outside the embedded computation.
-/

namespace GiniPy

/-- The runtime type dispatch of the source (lines 50, 61, 71): `data` is a
pandas `DataFrame`, an `H2OFrame`, or anything else.  Both frame backends
hold the same abstract rows. -/
inductive Data (α : Type) where
  | pandas (rows : List α)
  | h2o (rows : List α)
  | invalid
deriving DecidableEq

/-- `data.sort_values(by=rank, ascending=ascending)`: sort the rows by the
value of the rank column.  Following pandas' `nargsort`, the descending
direction reverses the rows, sorts ascending, and reverses the result, so
rank-tied rows come out in their original relative order in both
directions. -/
def sortRows (rank : α → ℚ) (ascending : Bool) (rows : List α) : List α :=
  if ascending then rows.insertionSort (fun a b => rank a ≤ rank b)
  else (rows.reverse.insertionSort (fun a b => rank a ≤ rank b)).reverse

/-- Line 76/77: `col / col.sum()` — rescale a column so it sums to 1
(when its sum is nonzero). -/
def normalize (xs : List ℚ) : List ℚ :=
  xs.map (· / xs.sum)

/-- `col.cumsum()` with a running accumulator. -/
def cumsumFrom (acc : ℚ) : List ℚ → List ℚ
  | [] => []
  | x :: xs => (acc + x) :: cumsumFrom (acc + x) xs

/-- Lines 80/81: `col.cumsum()` — running totals of a column. -/
def cumsum (xs : List ℚ) : List ℚ :=
  cumsumFrom 0 xs

/-- Line 85: the `lift` column
`(cumul_weight - cumul_total) * weight_normalized`, given the two
cumulative columns and the normalized weight column. -/
def liftCol (ct cw wn : List ℚ) : List ℚ :=
  List.zipWith (· * ·) (List.zipWith (· - ·) cw ct) wn

/-- Lines 76-89: the numeric pipeline applied to the already-sorted target
and weight columns: normalize both, take running totals, sum the `lift`
column and scale by `2` or `-2` depending on the sort direction. -/
def giniFromSorted (ts ws : List ℚ) (ascending : Bool) : ℚ :=
  let tn := normalize ts
  let wn := normalize ws
  let ct := cumsum tn
  let cw := cumsum wn
  let lift := liftCol ct cw wn
  if ascending then 2 * lift.sum else -2 * lift.sum

/-- The function `gini(data, target, ranking=None, weight=None, ...,
ascending=True)` of `src/gini.py`.  `ranking = none` defaults the rank
column to the target column (lines 47-48); `weight = none` attaches a
constant weight of 1 per row after sorting (lines 53-56); a `data` argument
of invalid type returns the sentinel `-1` (lines 71-73). -/
def gini (data : Data α) (target : α → ℚ) (ranking : Option (α → ℚ))
    (weight : Option (α → ℚ)) (ascending : Bool) : ℚ :=
  let rank := ranking.getD target
  match data with
  | .pandas rows | .h2o rows =>
      let sorted := sortRows rank ascending rows
      match weight with
      | none => giniFromSorted (sorted.map target) (sorted.map fun _ => 1) ascending
      | some w => giniFromSorted (sorted.map target) (sorted.map w) ascending
  | .invalid => -1

/-- The value of `sorted_data["lift"].sum()` expressed with explicit running
accumulators `A` (cumulative normalized target so far) and `B` (cumulative
normalized weight so far): an induction-friendly restatement of the
column-wise computation of lines 80-87, related to it by
`liftCol_cumsumFrom_sum` below. -/
def areaAux (A B : ℚ) : List ℚ → List ℚ → ℚ
  | t :: ts, w :: ws => ((B + w) - (A + t)) * w + areaAux (A + t) (B + w) ts ws
  | _, _ => 0

/-- The memory visible to a `gini` call on the pandas path: the caller's
frame `data`, and the working frame `sorted_data` with the columns the
source creates on it (target and weight after line 59, `cumul_total`,
`cumul_weight` and `lift` once assigned; empty lists before).  Assignments
in the source mutate only `sorted_data`, which pandas' `sort_values` and
double-bracket column selection return as a fresh copy of the relevant
columns. -/
structure Mem (α : Type) where
  data : List α
  sortedTarget : List ℚ
  sortedWeight : List ℚ
  cumulTotal : List ℚ
  cumulWeight : List ℚ
  lift : List ℚ

/-- Lines 47-89 of the source as explicit state passing over `Mem`: each
step reads or writes the fields that the corresponding pandas statement
reads or writes, and the call returns the coefficient together with the
final memory. -/
def giniRun (target : α → ℚ) (ranking : Option (α → ℚ))
    (weight : Option (α → ℚ)) (ascending : Bool) (m : Mem α) : ℚ × Mem α :=
  let rank := ranking.getD target
  let sorted := sortRows rank ascending m.data
  let m := match weight with
    | none =>
        { m with sortedTarget := sorted.map target
                 sortedWeight := sorted.map fun _ => 1 }
    | some w =>
        { m with sortedTarget := sorted.map target
                 sortedWeight := sorted.map w }
  let m := { m with sortedTarget := normalize m.sortedTarget }
  let m := { m with sortedWeight := normalize m.sortedWeight }
  let m := { m with cumulTotal := cumsum m.sortedTarget }
  let m := { m with cumulWeight := cumsum m.sortedWeight }
  let m := { m with lift := liftCol m.cumulTotal m.cumulWeight m.sortedWeight }
  let g := if ascending then 2 * m.lift.sum else -2 * m.lift.sum
  (g, m)

/-! ## Helper lemmas -/

theorem sum_map_div (xs : List ℚ) (c : ℚ) : (xs.map (· / c)).sum = xs.sum / c := by
  induction xs with
  | nil => simp
  | cons x xs ih => simp [ih, div_add_div_same]

theorem normalize_sum (xs : List ℚ) (h : xs.sum ≠ 0) : (normalize xs).sum = 1 := by
  rw [normalize, sum_map_div, div_self h]

theorem normalize_length (xs : List ℚ) : (normalize xs).length = xs.length := by
  simp [normalize]

theorem normalize_reverse (xs : List ℚ) :
    normalize xs.reverse = (normalize xs).reverse := by
  simp [normalize, List.map_reverse, List.sum_reverse]

theorem normalize_replicate (n : ℕ) (c : ℚ) :
    normalize (List.replicate n c) = List.replicate n (c / (n * c)) := by
  simp [normalize, List.map_replicate, List.sum_replicate, nsmul_eq_mul]

theorem normalize_replicate_of_ne (n : ℕ) (c : ℚ) (hc : c ≠ 0) :
    normalize (List.replicate n c) = List.replicate n ((n : ℚ))⁻¹ := by
  rw [normalize_replicate]
  have h : c / ((n : ℚ) * c) = ((n : ℚ))⁻¹ := by
    rw [mul_comm, ← div_div, div_self hc, one_div]
  rw [h]

theorem sortRows_perm (rank : α → ℚ) (asc : Bool) (rows : List α) :
    (sortRows rank asc rows).Perm rows := by
  cases asc with
  | true =>
      simpa [sortRows] using List.perm_insertionSort (fun a b => rank a ≤ rank b) rows
  | false =>
      simpa [sortRows] using
        ((List.reverse_perm
              (rows.reverse.insertionSort fun a b => rank a ≤ rank b)).trans
            (List.perm_insertionSort (fun a b => rank a ≤ rank b)
              rows.reverse)).trans
          (List.reverse_perm rows)

theorem sortRows_length (rank : α → ℚ) (asc : Bool) (rows : List α) :
    (sortRows rank asc rows).length = rows.length :=
  (sortRows_perm rank asc rows).length_eq

theorem sum_map_sortRows (rank f : α → ℚ) (asc : Bool) (rows : List α) :
    ((sortRows rank asc rows).map f).sum = (rows.map f).sum :=
  ((sortRows_perm rank asc rows).map f).sum_eq

theorem eq_of_perm_of_sorted_of_distinct (rank : α → ℚ) :
    ∀ (l₁ l₂ : List α), l₁.Perm l₂ →
      l₁.Sorted (fun a b => rank a ≤ rank b) →
      l₂.Sorted (fun a b => rank a ≤ rank b) →
      l₁.Pairwise (fun a b => rank a ≠ rank b) → l₁ = l₂
  | [], _, hp, _, _, _ => (hp.symm.eq_nil).symm
  | a :: t₁, [], hp, _, _, _ => absurd hp.eq_nil (List.cons_ne_nil a t₁)
  | a :: t₁, b :: t₂, hp, hs₁, hs₂, hd => by
      have hab : a = b := by
        by_contra hne
        have ha : a ∈ t₂ := by
          rcases List.mem_cons.mp (hp.mem_iff.mp (List.mem_cons_self a t₁)) with h | h
          · exact absurd h hne
          · exact h
        have hb : b ∈ t₁ := by
          rcases List.mem_cons.mp (hp.mem_iff.mpr (List.mem_cons_self b t₂)) with h | h
          · exact absurd h.symm hne
          · exact h
        have h1 : rank a ≤ rank b := (List.sorted_cons.mp hs₁).1 b hb
        have h2 : rank b ≤ rank a := (List.sorted_cons.mp hs₂).1 a ha
        exact (List.pairwise_cons.mp hd).1 b hb (le_antisymm h1 h2)
      subst hab
      rw [eq_of_perm_of_sorted_of_distinct rank t₁ t₂ hp.cons_inv
        (List.sorted_cons.mp hs₁).2 (List.sorted_cons.mp hs₂).2
        (List.pairwise_cons.mp hd).2]

theorem sortRows_false_of_distinct (rank : α → ℚ) (rows : List α)
    (hd : rows.Pairwise fun a b => rank a ≠ rank b) :
    sortRows rank false rows = (sortRows rank true rows).reverse := by
  haveI : IsTotal α fun a b => rank a ≤ rank b :=
    ⟨fun a b => le_total (rank a) (rank b)⟩
  haveI : IsTrans α fun a b => rank a ≤ rank b :=
    ⟨fun _ _ _ h1 h2 => le_trans h1 h2⟩
  show (rows.reverse.insertionSort fun a b => rank a ≤ rank b).reverse =
    (rows.insertionSort fun a b => rank a ≤ rank b).reverse
  congr 1
  refine eq_of_perm_of_sorted_of_distinct rank _ _
    (((List.perm_insertionSort _ rows.reverse).trans
        (List.reverse_perm rows)).trans
      (List.perm_insertionSort (fun a b => rank a ≤ rank b) rows).symm)
    (List.sorted_insertionSort _ _) (List.sorted_insertionSort _ _) ?_
  have hperm : (rows.reverse.insertionSort fun a b => rank a ≤ rank b).Perm rows :=
    (List.perm_insertionSort _ rows.reverse).trans (List.reverse_perm rows)
  exact (hperm.pairwise_iff fun h => h.symm).mpr hd

theorem liftCol_cumsumFrom_sum :
    ∀ (ts ws : List ℚ) (A B : ℚ),
      (liftCol (cumsumFrom A ts) (cumsumFrom B ws) ws).sum = areaAux A B ts ws
  | [], [], A, B => by simp [liftCol, cumsumFrom, areaAux]
  | [], _ :: _, A, B => by simp [liftCol, cumsumFrom, areaAux]
  | _ :: _, [], A, B => by simp [liftCol, cumsumFrom, areaAux]
  | t :: ts, w :: ws, A, B => by
      simp only [liftCol, cumsumFrom, List.zipWith_cons_cons, List.sum_cons, areaAux]
      rw [← liftCol_cumsumFrom_sum ts ws (A + t) (B + w)]
      rfl

theorem giniFromSorted_eq_areaAux (ts ws : List ℚ) (asc : Bool) :
    giniFromSorted ts ws asc =
      (if asc then 2 else -2) * areaAux 0 0 (normalize ts) (normalize ws) := by
  cases asc <;>
    simp [giniFromSorted, cumsum, liftCol_cumsumFrom_sum]

theorem areaAux_shift :
    ∀ (ts ws : List ℚ) (A B : ℚ), ts.length = ws.length →
      areaAux A B ts ws = areaAux 0 0 ts ws + (B - A) * ws.sum
  | [], [], A, B, _ => by simp [areaAux]
  | [], _ :: _, A, B, h => by simp at h
  | _ :: _, [], A, B, h => by simp at h
  | t :: ts, w :: ws, A, B, h => by
      have h' : ts.length = ws.length := by simpa using h
      have h1 := areaAux_shift ts ws (A + t) (B + w) h'
      have h2 := areaAux_shift ts ws t w h'
      simp only [areaAux, List.sum_cons, zero_add]
      rw [h1, h2]
      ring

theorem areaAux_append :
    ∀ (ts ws : List ℚ) (A B t w : ℚ), ts.length = ws.length →
      areaAux A B (ts ++ [t]) (ws ++ [w]) =
        areaAux A B ts ws + ((B + ws.sum + w) - (A + ts.sum + t)) * w
  | [], [], A, B, t, w, _ => by
      simp only [List.nil_append, areaAux, List.sum_nil]
      ring
  | [], _ :: _, A, B, t, w, h => by simp at h
  | _ :: _, [], A, B, t, w, h => by simp at h
  | t' :: ts, w' :: ws, A, B, t, w, h => by
      have h' : ts.length = ws.length := by simpa using h
      simp only [List.cons_append, areaAux, List.sum_cons, List.append_eq]
      rw [areaAux_append ts ws (A + t') (B + w') t w h']
      ring

theorem areaAux_reverse :
    ∀ (ts ws : List ℚ), ts.length = ws.length →
      areaAux 0 0 ts.reverse ws.reverse =
        (ws.sum - ts.sum) * ws.sum - areaAux 0 0 ts ws +
          (List.zipWith (fun w t => w * (w - t)) ws ts).sum
  | [], [], _ => by simp [areaAux]
  | [], _ :: _, h => by simp at h
  | _ :: _, [], h => by simp at h
  | t :: ts, w :: ws, h => by
      have h' : ts.length = ws.length := by simpa using h
      simp only [List.reverse_cons, List.sum_cons, List.zipWith_cons_cons]
      rw [areaAux_append ts.reverse ws.reverse 0 0 t w (by simp [h'])]
      rw [areaAux_reverse ts ws h']
      simp only [List.sum_reverse, areaAux, zero_add]
      rw [areaAux_shift ts ws t w h']
      ring

theorem areaAux_self : ∀ (A : ℚ) (l : List ℚ), areaAux A A l l = 0
  | _, [] => by simp [areaAux]
  | A, x :: l => by simp [areaAux, areaAux_self (A + x) l]

theorem zip_corr_replicate :
    ∀ (l : List ℚ) (n : ℕ) (c : ℚ), l.length = n →
      (List.zipWith (fun w t => w * (w - t)) (List.replicate n c) l).sum =
        n * (c * c) - c * l.sum
  | [], 0, c, _ => by simp
  | [], _ + 1, c, h => by simp at h
  | _ :: _, 0, c, h => by simp at h
  | x :: l, n + 1, c, h => by
      have h' : l.length = n := by simpa using h
      simp only [List.replicate_succ, List.zipWith_cons_cons, List.sum_cons]
      rw [zip_corr_replicate l n c h']
      push_cast
      ring

theorem areaAux_reverse_replicate (ts : List ℚ) (n : ℕ) (c : ℚ)
    (h : ts.length = n) :
    areaAux 0 0 ts.reverse (List.replicate n c) =
      ((n : ℚ) * c - ts.sum) * ((n : ℚ) * c) -
        areaAux 0 0 ts (List.replicate n c) + ((n : ℚ) * (c * c) - c * ts.sum) := by
  conv_lhs => rw [← List.reverse_replicate n c]
  rw [areaAux_reverse ts (List.replicate n c) (by simp [h])]
  rw [zip_corr_replicate ts n c h]
  simp [List.sum_replicate, nsmul_eq_mul]

theorem giniFromSorted_reverse_uniform (ts : List ℚ) (n : ℕ) (hn : n ≠ 0)
    (hlen : ts.length = n) (hsum : ts.sum ≠ 0) :
    giniFromSorted ts.reverse (List.replicate n 1) false =
      giniFromSorted ts (List.replicate n 1) true := by
  have hn' : ((n : ℚ)) ≠ 0 := Nat.cast_ne_zero.mpr hn
  rw [giniFromSorted_eq_areaAux, giniFromSorted_eq_areaAux, normalize_reverse,
    normalize_replicate_of_ne n 1 one_ne_zero]
  rw [areaAux_reverse_replicate (normalize ts) n ((n : ℚ))⁻¹
    (by rw [normalize_length, hlen])]
  rw [normalize_sum ts hsum]
  rw [mul_inv_cancel₀ hn']
  field_simp

theorem giniFromSorted_const (n : ℕ) (c : ℚ) (hc : c ≠ 0) (asc : Bool) :
    giniFromSorted (List.replicate n c) (List.replicate n 1) asc = 0 := by
  rw [giniFromSorted_eq_areaAux, normalize_replicate_of_ne n c hc,
    normalize_replicate_of_ne n 1 one_ne_zero, areaAux_self, mul_zero]

theorem sum_map_mul (c : ℚ) (l : List ℚ) :
    (l.map fun x => c * x).sum = c * l.sum := by
  induction l with
  | nil => simp
  | cons x l ih => simp [ih, mul_add]

theorem normalize_map_mul (c : ℚ) (hc : c ≠ 0) (l : List ℚ) :
    normalize (l.map fun x => c * x) = normalize l := by
  unfold normalize
  rw [sum_map_mul, List.map_map]
  exact List.map_congr_left fun x _ => mul_div_mul_left x l.sum hc

/-! ## Claims -/

/-- Claim C1, counterexample: for the dataset with outcome column
`[10, 20, 30, 40]`, ranking defaulting to the outcome and no weight column,
`gini` returns `1/4` for both sort directions; in particular the descending
result is not the negation of the ascending one.  On this tie-free dataset
the descending sort is the exact reverse of the ascending sort, and the
`-2` factor on the descending branch (line 89) compensates for the mirrored
Lorenz curve instead of flipping the sign of the returned coefficient. -/
theorem gini_reverse_negation_counterexample :
    gini (Data.pandas [(10:ℚ), 20, 30, 40]) id none none false = 1/4 ∧
      gini (Data.pandas [(10:ℚ), 20, 30, 40]) id none none true = 1/4 ∧
      gini (Data.pandas [(10:ℚ), 20, 30, 40]) id none none false ≠
        -(gini (Data.pandas [(10:ℚ), 20, 30, 40]) id none none true) := by
  refine ⟨?_, ?_, ?_⟩ <;>
    norm_num [gini, sortRows, giniFromSorted, normalize, cumsum, cumsumFrom,
      liftCol, List.insertionSort, List.orderedInsert]

/-- Claim C1, amended: for every dataset with at least one row, a nonzero
outcome total, pairwise-distinct rank values and no weight column (uniform
weights), calling `gini` with `ascending = false` returns the same
coefficient as with `ascending = true` — the sign does not flip.  Under
distinct ranks the descending order is the exact reverse of the ascending
order; with tied ranks both directions keep tied rows in original order, so
the two results can genuinely differ (two rows with equal ranks and targets
`[1, 2]` give `1/6` ascending and `-1/6` descending). -/
theorem gini_reverse_direction_eq (rows : List α) (target : α → ℚ)
    (rk : Option (α → ℚ)) (hne : rows ≠ [])
    (ht : (rows.map target).sum ≠ 0)
    (hd : rows.Pairwise fun a b => rk.getD target a ≠ rk.getD target b) :
    gini (Data.pandas rows) target rk none false =
      gini (Data.pandas rows) target rk none true := by
  have hn : rows.length ≠ 0 := fun h => hne (List.length_eq_zero.mp h)
  show giniFromSorted ((sortRows (rk.getD target) false rows).map target)
      ((sortRows (rk.getD target) false rows).map fun _ => 1) false =
    giniFromSorted ((sortRows (rk.getD target) true rows).map target)
      ((sortRows (rk.getD target) true rows).map fun _ => 1) true
  rw [sortRows_false_of_distinct (rk.getD target) rows hd, List.map_reverse,
    List.map_const', List.map_const', List.length_reverse, sortRows_length]
  exact giniFromSorted_reverse_uniform _ rows.length hn
    (by rw [List.length_map, sortRows_length])
    (by rw [sum_map_sortRows]; exact ht)

/-- Witness for the amended claim C1 at the dataset `[1, 2, 4]`. -/
theorem gini_reverse_direction_eq_witness :
    ([(1:ℚ), 2, 4] ≠ ([] : List ℚ)) ∧ (([(1:ℚ), 2, 4].map id).sum ≠ 0) ∧
      ([(1:ℚ), 2, 4].Pairwise fun a b =>
        (none : Option (ℚ → ℚ)).getD id a ≠ (none : Option (ℚ → ℚ)).getD id b) ∧
      gini (Data.pandas [(1:ℚ), 2, 4]) id none none false =
        gini (Data.pandas [(1:ℚ), 2, 4]) id none none true :=
  ⟨by simp, by norm_num, by decide,
    gini_reverse_direction_eq [(1:ℚ), 2, 4] id none (by simp) (by norm_num)
      (by decide)⟩

/-- Claim C2 (code bug): on a dataset whose weight column sums to zero the
source raises nothing — lines 76-89 run unguarded, dividing the weight
column by its zero total and returning the resulting number.  Evaluating
the embedding on targets `[1, 2, 3]` with weights `[0, 0, 0]` returns the
value `0` (in Python float arithmetic the same path returns `NaN`); no
`DegenerateTotal` error exists anywhere in the source. -/
theorem gini_zero_weight_total_returns_value :
    gini (Data.pandas [((1:ℚ), (0:ℚ)), (2, 0), (3, 0)]) Prod.fst
      (some Prod.fst) (some Prod.snd) true = 0 := by
  norm_num [gini, sortRows, giniFromSorted, normalize, cumsum, cumsumFrom,
    liftCol, List.insertionSort, List.orderedInsert]

/-- Claim C3 (code bug): on a dataset with zero rows the source reports no
`EmptyDataset` failure; every column operation runs on empty columns and the
call returns the number `0` (the empty sum) instead of an error. -/
theorem gini_empty_dataset_returns_zero :
    gini (Data.pandas ([] : List ℚ)) id none none true = 0 := by
  norm_num [gini, sortRows, giniFromSorted, normalize, cumsum, cumsumFrom,
    liftCol, List.insertionSort, List.orderedInsert]

/-- Claim C4: for the dataset with outcome column `[10, 20, 30, 40]`,
ranking defaulting to the outcome column, no weight column and
`ascending = true`, `gini` returns the coefficient `1/4 = 0.25`. -/
theorem gini_example_coefficient_quarter :
    gini (Data.pandas [(10:ℚ), 20, 30, 40]) id none none true = 1/4 := by
  norm_num [gini, sortRows, giniFromSorted, normalize, cumsum, cumsumFrom,
    liftCol, List.insertionSort, List.orderedInsert]

/-- Claim C5: for every non-empty dataset in which all outcome values equal
the same nonzero constant `c`, with any ranking column and no weight
column, `gini` returns exactly `0` (for either sort direction). -/
theorem gini_constant_outcome_zero (rows : List α) (target rnk : α → ℚ)
    (c : ℚ) (asc : Bool) (_hne : rows ≠ []) (hc : c ≠ 0)
    (hall : ∀ r ∈ rows, target r = c) :
    gini (Data.pandas rows) target (some rnk) none asc = 0 := by
  show giniFromSorted ((sortRows rnk asc rows).map target)
      ((sortRows rnk asc rows).map fun _ => 1) asc = 0
  have hmap : (sortRows rnk asc rows).map target =
      List.replicate ((sortRows rnk asc rows).map target).length c :=
    List.eq_replicate_of_mem (by
      intro b hb
      rcases List.mem_map.mp hb with ⟨r, hr, hb'⟩
      rw [← hb']
      exact hall r ((sortRows_perm rnk asc rows).mem_iff.mp hr))
  rw [hmap, List.map_const', List.length_map]
  exact giniFromSorted_const _ c hc asc

/-- Witness for claim C5 at the dataset `[5, 5, 5, 5]`. -/
theorem gini_constant_outcome_zero_witness :
    ([(5:ℚ), 5, 5, 5] ≠ ([] : List ℚ)) ∧ ((5:ℚ) ≠ 0) ∧
      (∀ r ∈ [(5:ℚ), 5, 5, 5], id r = 5) ∧
      gini (Data.pandas [(5:ℚ), 5, 5, 5]) id (some id) none true = 0 :=
  ⟨by simp, by norm_num, by decide,
    gini_constant_outcome_zero [(5:ℚ), 5, 5, 5] id id 5 true (by simp)
      (by norm_num) (by decide)⟩

/-- Claim C7: whenever the outcome and weight columns of the dataset each
have a nonzero sum, the two columns written by the normalization step
(lines 76-77) — the final `sortedTarget` and `sortedWeight` columns of the
working frame — each sum to exactly 1. -/
theorem giniRun_normalized_columns_sum_one (m : Mem α) (target rnk wf : α → ℚ)
    (asc : Bool) (ht : (m.data.map target).sum ≠ 0)
    (hw : (m.data.map wf).sum ≠ 0) :
    ((giniRun target (some rnk) (some wf) asc m).2.sortedTarget).sum = 1 ∧
      ((giniRun target (some rnk) (some wf) asc m).2.sortedWeight).sum = 1 := by
  constructor
  · show (normalize ((sortRows rnk asc m.data).map target)).sum = 1
    exact normalize_sum _ (by rw [sum_map_sortRows]; exact ht)
  · show (normalize ((sortRows rnk asc m.data).map wf)).sum = 1
    exact normalize_sum _ (by rw [sum_map_sortRows]; exact hw)

/-- Witness for claim C7 at the two-row dataset `[(1,2), (3,4)]`. -/
theorem giniRun_normalized_columns_sum_one_witness :
    ((([((1:ℚ), (2:ℚ)), (3, 4)].map Prod.fst).sum ≠ 0) ∧
        (([((1:ℚ), (2:ℚ)), (3, 4)].map Prod.snd).sum ≠ 0)) ∧
      (((giniRun Prod.fst (some Prod.fst) (some Prod.snd) true
            ⟨[((1:ℚ), (2:ℚ)), (3, 4)], [], [], [], [], []⟩).2.sortedTarget).sum = 1 ∧
        ((giniRun Prod.fst (some Prod.fst) (some Prod.snd) true
            ⟨[((1:ℚ), (2:ℚ)), (3, 4)], [], [], [], [], []⟩).2.sortedWeight).sum = 1) :=
  ⟨⟨by norm_num, by norm_num⟩,
    giniRun_normalized_columns_sum_one _ _ _ _ _ (by norm_num) (by norm_num)⟩

/-- Claim C8: the caller's frame is unchanged by a `gini` call — in the
state-passing embedding of the pandas path, the `data` component of the
final memory equals the input frame, and the returned coefficient agrees
with the pure `gini` function of that input. -/
theorem gini_preserves_input_frame (target : α → ℚ) (rk w : Option (α → ℚ))
    (asc : Bool) (m : Mem α) :
    (giniRun target rk w asc m).2.data = m.data ∧
      (giniRun target rk w asc m).1 =
        gini (Data.pandas m.data) target rk w asc := by
  cases w <;> exact ⟨rfl, rfl⟩

/-- Claim C9: when the `data` argument is neither a pandas `DataFrame` nor
an `H2OFrame`, `gini` returns the numeric sentinel `-1` (lines 71-73)
without running the computation. -/
theorem gini_invalid_type_sentinel (target : α → ℚ) (rk w : Option (α → ℚ))
    (asc : Bool) : gini (Data.invalid : Data α) target rk w asc = -1 := rfl

/-- Claim C10: multiplying every outcome value by a positive constant `c`
leaves the coefficient unchanged, and likewise for the weight column — the
normalization by the column's own sum (lines 76-77) cancels the factor. -/
theorem gini_scale_invariance (rows : List α) (target rnk wf : α → ℚ)
    (asc : Bool) (c : ℚ) (hc : 0 < c) (_ht : (rows.map target).sum ≠ 0)
    (_hw : (rows.map wf).sum ≠ 0) :
    gini (Data.pandas rows) (fun r => c * target r) (some rnk) (some wf) asc =
        gini (Data.pandas rows) target (some rnk) (some wf) asc ∧
      gini (Data.pandas rows) target (some rnk) (some fun r => c * wf r) asc =
        gini (Data.pandas rows) target (some rnk) (some wf) asc := by
  have hc' : c ≠ 0 := ne_of_gt hc
  constructor
  · show giniFromSorted ((sortRows rnk asc rows).map fun r => c * target r)
        ((sortRows rnk asc rows).map wf) asc =
      giniFromSorted ((sortRows rnk asc rows).map target)
        ((sortRows rnk asc rows).map wf) asc
    have h1 : ((sortRows rnk asc rows).map fun r => c * target r) =
        ((sortRows rnk asc rows).map target).map fun x => c * x := by
      rw [List.map_map]; rfl
    rw [giniFromSorted_eq_areaAux, giniFromSorted_eq_areaAux, h1,
      normalize_map_mul c hc']
  · show giniFromSorted ((sortRows rnk asc rows).map target)
        ((sortRows rnk asc rows).map fun r => c * wf r) asc =
      giniFromSorted ((sortRows rnk asc rows).map target)
        ((sortRows rnk asc rows).map wf) asc
    have h1 : ((sortRows rnk asc rows).map fun r => c * wf r) =
        ((sortRows rnk asc rows).map wf).map fun x => c * x := by
      rw [List.map_map]; rfl
    rw [giniFromSorted_eq_areaAux, giniFromSorted_eq_areaAux, h1,
      normalize_map_mul c hc']

/-- Witness for claim C10 at the dataset `[(1,2), (3,4)]` with `c = 2`. -/
theorem gini_scale_invariance_witness :
    ((0:ℚ) < 2 ∧ (([((1:ℚ), (2:ℚ)), (3, 4)].map Prod.fst).sum ≠ 0) ∧
        (([((1:ℚ), (2:ℚ)), (3, 4)].map Prod.snd).sum ≠ 0)) ∧
      (gini (Data.pandas [((1:ℚ), (2:ℚ)), (3, 4)]) (fun r => 2 * Prod.fst r)
            (some Prod.fst) (some Prod.snd) true =
          gini (Data.pandas [((1:ℚ), (2:ℚ)), (3, 4)]) Prod.fst (some Prod.fst)
            (some Prod.snd) true ∧
        gini (Data.pandas [((1:ℚ), (2:ℚ)), (3, 4)]) Prod.fst (some Prod.fst)
            (some fun r => 2 * Prod.snd r) true =
          gini (Data.pandas [((1:ℚ), (2:ℚ)), (3, 4)]) Prod.fst (some Prod.fst)
            (some Prod.snd) true) :=
  ⟨⟨by norm_num, by norm_num, by norm_num⟩,
    gini_scale_invariance _ _ _ _ _ 2 (by norm_num) (by norm_num) (by norm_num)⟩

end GiniPy
